import Mathlib

/-!
Verification of the in-memory XML message broker (flask_rest_api.py).

The core is embedded shallowly:
* `XmlElem` models an attribute-free lxml element tree (tag, text content,
  child elements); `serialize` models `etree.tostring`.
* Because `apply_filter` executes `pack_message.append(message)`, which in
  lxml re-parents a stored element under the freshly built `Messages`
  element, the store state `St` keeps, for every queued record, the id of
  the document tree it currently lives in, and `docs` maps each document id
  to the list of message elements under that document root in document
  order.  The XPath `//*[local-name() = $name]` starts from the document
  root, so a field read returns the first element of that name in the whole
  document, modelled by `firstInForest` over the document members.
* `Json` models the parsed JSON filter documents; `validate_json` models the
  fastjsonschema check of the filter schema (error texts are abridged: the
  transport only ever compares the result against the exact string "valid").
* `validate_xml` models the XSD check: a Message with exactly one Header
  holding exactly To, From, Timestamp, Title, Body in that order, Timestamp
  in xs:dateTime form.  The model covers attribute-free documents,
  whitespace-free element-only content, and the non-negative four-digit-year
  fragment of xs:dateTime (the fragment on which dateutil.parser.parse is
  total as used by the code).
-/

namespace RestAPI

/-- An attribute-free XML element: tag name, text content, child elements. -/
inductive XmlElem where
  | mk (tag : String) (text : String) (children : List XmlElem)
deriving Repr

def XmlElem.tag : XmlElem → String
  | .mk t _ _ => t

def XmlElem.text : XmlElem → String
  | .mk _ x _ => x

def XmlElem.children : XmlElem → List XmlElem
  | .mk _ _ cs => cs

mutual

def XmlElem.deq : (a b : XmlElem) → Decidable (a = b)
  | .mk t1 x1 c1, .mk t2 x2 c2 =>
    match String.decEq t1 t2 with
    | isFalse h => isFalse (by intro he; cases he; exact h rfl)
    | isTrue h1 =>
      match String.decEq x1 x2 with
      | isFalse h => isFalse (by intro he; cases he; exact h rfl)
      | isTrue h2 =>
        match XmlElem.deqForest c1 c2 with
        | isFalse h => isFalse (by intro he; cases he; exact h rfl)
        | isTrue h3 => isTrue (by rw [h1, h2, h3])

def XmlElem.deqForest : (a b : List XmlElem) → Decidable (a = b)
  | [], [] => isTrue rfl
  | [], _ :: _ => isFalse (by intro h; cases h)
  | _ :: _, [] => isFalse (by intro h; cases h)
  | a :: as, b :: bs =>
    match XmlElem.deq a b with
    | isFalse h => isFalse (by intro he; injection he; contradiction)
    | isTrue h1 =>
      match XmlElem.deqForest as bs with
      | isFalse h => isFalse (by intro he; injection he; contradiction)
      | isTrue h2 => isTrue (by rw [h1, h2])

end

instance : DecidableEq XmlElem := XmlElem.deq

mutual

/-- Models `etree.tostring` on attribute-free elements. -/
def serialize : XmlElem → String
  | .mk tag text children =>
    "<" ++ tag ++ ">" ++ text ++ serializeForest children ++ "</" ++ tag ++ ">"

def serializeForest : List XmlElem → String
  | [] => ""
  | c :: cs => serialize c ++ serializeForest cs

end

mutual

/-- First element with the given tag in preorder (document order) in one tree. -/
def firstInTree (name : String) : XmlElem → Option XmlElem
  | .mk t x cs => if t == name then some (.mk t x cs) else firstInForest name cs

/-- First element with the given tag in document order over a forest.  Models
the XPath query `//*[local-name() = $name]` followed by taking index 0, where
the forest lists the message elements of the queried document in order. -/
def firstInForest (name : String) : List XmlElem → Option XmlElem
  | [] => none
  | t :: ts =>
    match firstInTree name t with
    | some r => some r
    | none => firstInForest name ts

end

/-! ### xs:dateTime (the fragment accepted by the schema and by dateutil) -/

def digitVal (c : Char) : Nat := c.toNat - 48

def val2 (a b : Char) : Nat := 10 * digitVal a + digitVal b

def val4 (a b c d : Char) : Nat :=
  1000 * digitVal a + 100 * digitVal b + 10 * digitVal c + digitVal d

def isLeapYear (y : Nat) : Bool :=
  y % 4 == 0 && (y % 100 != 0 || y % 400 == 0)

def daysInMonth (y m : Nat) : Nat :=
  if m == 2 then (if isLeapYear y then 29 else 28)
  else if m == 4 || m == 6 || m == 9 || m == 11 then 30
  else 31

/-- Timezone suffix of xs:dateTime: empty, Z, or a signed hh:mm offset. -/
def tzOk : List Char → Bool
  | [] => true
  | ['Z'] => true
  | [s, h1, h2, ':', m1, m2] =>
    (s == '+' || s == '-') && [h1, h2, m1, m2].all Char.isDigit &&
      (val2 h1 h2 < 14 && val2 m1 m2 ≤ 59 || (val2 h1 h2 == 14 && val2 m1 m2 == 0))
  | _ => false

/-- Optional fractional seconds followed by the optional timezone. -/
def fracTzOk : List Char → Bool
  | '.' :: rest => !(rest.takeWhile Char.isDigit).isEmpty && tzOk (rest.dropWhile Char.isDigit)
  | rest => tzOk rest

/-- Lexical and value check of xs:dateTime, restricted to non-negative
four-digit years (the domain on which the rest of the code is total). -/
def isXsDateTime (s : String) : Bool :=
  match s.toList with
  | y1 :: y2 :: y3 :: y4 :: '-' :: m1 :: m2 :: '-' :: d1 :: d2 :: 'T' ::
      h1 :: h2 :: ':' :: n1 :: n2 :: ':' :: s1 :: s2 :: rest =>
    [y1, y2, y3, y4, m1, m2, d1, d2, h1, h2, n1, n2, s1, s2].all Char.isDigit &&
    decide (1 ≤ val2 m1 m2) && decide (val2 m1 m2 ≤ 12) &&
    decide (1 ≤ val2 d1 d2) &&
    decide (val2 d1 d2 ≤ daysInMonth (val4 y1 y2 y3 y4) (val2 m1 m2)) &&
    decide (val2 h1 h2 ≤ 23) && decide (val2 n1 n2 ≤ 59) && decide (val2 s1 s2 ≤ 59) &&
    fracTzOk rest
  | _ => false

/-- Models `dateutil.parser.parse` followed by `strftime` with day.month.year
on a string in xs:dateTime lexical form: the already zero-padded calendar
components are read off positionally and the time of day and timezone are
discarded, exactly as the strftime of the parsed value renders them. -/
def dateutilFmt (ts : String) : String :=
  let cs := ts.toList
  String.mk ((cs.drop 8).take 2) ++ "." ++ String.mk ((cs.drop 5).take 2) ++ "." ++
    String.mk (cs.take 4)

/-! ### Schema validator (validate_xml) -/

def isStringLeaf (e : XmlElem) (name : String) : Bool :=
  e.tag == name && e.children.isEmpty

/-- Models the XSD of validate_xml: root Message, exactly one Header child,
whose children are exactly To, From, Timestamp, Title, Body in this order,
each a leaf, with Timestamp in xs:dateTime form. -/
def validate_xml (m : XmlElem) : Bool :=
  m.tag == "Message" && m.text == "" &&
    (match m.children with
    | [h] =>
      h.tag == "Header" && h.text == "" &&
        (match h.children with
        | [f1, f2, f3, f4, f5] =>
          isStringLeaf f1 "To" && isStringLeaf f2 "From" &&
          f3.tag == "Timestamp" && f3.children.isEmpty && isXsDateTime f3.text &&
          isStringLeaf f4 "Title" && isStringLeaf f5 "Body"
        | _ => false)
    | _ => false)

/-- The canonical shape of a conformant message document. -/
def mkMessage (a b c d e : String) : XmlElem :=
  .mk "Message" "" [.mk "Header" "" [.mk "To" a [], .mk "From" b [],
    .mk "Timestamp" c [], .mk "Title" d [], .mk "Body" e []]]

/-! ### JSON values and the filter validator (validate_json) -/

inductive Json where
  | null
  | bool (b : Bool)
  | num (n : Int)
  | str (s : String)
  | arr (elems : List Json)
  | obj (entries : List (String × Json))

/-- Key lookup in a JSON object (Python dict keys are unique). -/
def lookupKey (kvs : List (String × Json)) (k : String) : Option Json :=
  match kvs with
  | [] => none
  | (k1, v) :: rest => if k1 == k then some v else lookupKey rest k

def Json.isStr : Json → Bool
  | .str _ => true
  | _ => false

/-- Python equality between a JSON value and a text string. -/
def jsonEqStr (v : Json) (s : String) : Bool :=
  match v with
  | .str t => t == s
  | _ => false

/-- The four declared filter properties, in the order of the JSON schema. -/
def filterKeys : List String := ["to", "from", "date", "title"]

/-- Checks of the individual filter entries: every key must be a declared
property (additionalProperties is false) and every declared property must be
a string.  Error texts are abridged; the caller only compares with "valid". -/
def checkFilterEntries : List (String × Json) → String
  | [] => "valid"
  | (k, v) :: rest =>
    if filterKeys.contains k then
      match v with
      | .str _ => checkFilterEntries rest
      | _ => "data.filter property must be string"
    else "data.filter must not contain unspecified properties"

/-- Models validate_json: the fastjsonschema validation of the filter schema.
The root schema requires type object and the property filter; it does NOT set
additionalProperties, so extra top-level keys are permitted.  The filter
value must be an object with 1 to 4 entries, all drawn from filterKeys, all
strings.  Returns the string "valid" on success, an error text otherwise. -/
def validate_json (j : Json) : String :=
  match j with
  | .obj kvs =>
    match lookupKey kvs "filter" with
    | none => "data must contain filter property"
    | some (.obj fs) =>
      if fs.length < 1 then "data.filter must not be empty"
      else if 4 < fs.length then "data.filter must contain at most 4 properties"
      else checkFilterEntries fs
    | some _ => "data.filter must be object"
  | _ => "data must be object"

/-! ### Filter matching (apply_filter) -/

/-- Models `check_mssg`: text of the first element of the given name in
document order of the document holding the record under scrutiny. -/
def check_mssg (doc : List XmlElem) (name : String) : Option String :=
  (firstInForest name doc).map XmlElem.text

/-- The `paths` table of apply_filter. -/
def pathOf (key : String) : String :=
  if key == "to" then "To"
  else if key == "from" then "From"
  else if key == "title" then "Title"
  else "Timestamp"

/-- One key of the filter conjunction: the date key goes through day-level
normalization of the Timestamp text, the others compare the filter value to
the field text. -/
def keyCheck (doc : List XmlElem) (key : String) (v : Json) : Bool :=
  if key == "date" then
    match check_mssg doc "Timestamp" with
    | some ts => jsonEqStr v (dateutilFmt ts)
    | none => false
  else
    match check_mssg doc (pathOf key) with
    | some t => jsonEqStr v t
    | none => false

/-- The `match` computation of apply_filter: conjunction over the keys common
to the paths table and the filter object; keys absent from the filter impose
no constraint. -/
def matchAll (doc : List XmlElem) (fs : List (String × Json)) : Bool :=
  filterKeys.all fun k =>
    match lookupKey fs k with
    | some v => keyCheck doc k v
    | none => true

/-! ### Store state and the queue operations -/

/-- Broker state: the deque `q` of records (each with the id of the document
tree the element currently lives in), the document table, and the next fresh
document id.  A freshly parsed message is the root of its own document. -/
structure St where
  q : List (XmlElem × Nat)
  docs : List (Nat × List XmlElem)
  next : Nat
deriving DecidableEq, Repr

def emptySt : St := ⟨[], [], 0⟩

def getDoc (docs : List (Nat × List XmlElem)) (i : Nat) : List XmlElem :=
  match docs with
  | [] => []
  | (j, ms) :: rest => if j == i then ms else getDoc rest i

def setDoc (docs : List (Nat × List XmlElem)) (i : Nat) (ms : List XmlElem) :
    List (Nat × List XmlElem) :=
  match docs with
  | [] => [(i, ms)]
  | (j, old) :: rest => if j == i then (i, ms) :: rest else (j, old) :: setDoc rest i ms

/-- Caller-visible outcomes of the three endpoints. -/
inductive Res where
  | created
  | parseError
  | schemaError
  | duplicate
  | deleted
  | emptyQueue
  | matches (ms : List XmlElem)
  | noMatch
  | filterInvalid (msg : String)
deriving DecidableEq, Repr

/-- Models sendMessage, parameterized by the schema validator so that
independence from it can be stated.  The input is the outcome of
`etree.fromstring`: `none` when the body is not parseable as XML (the
XMLSyntaxError branch), `some m` for the parsed document.  A valid message is
rejected as a duplicate when some queued record has identical `tostring`
serialization, else appended at the tail as the root of a fresh document. -/
def sendMessageWith (validator : XmlElem → Bool) (st : St) (input : Option XmlElem) :
    St × Res :=
  match input with
  | none => (st, .parseError)
  | some m =>
    if validator m then
      if st.q.any (fun e => serialize e.1 == serialize m) then
        (st, .duplicate)
      else
        (⟨st.q ++ [(m, st.next)], (st.next, [m]) :: st.docs, st.next + 1⟩, .created)
    else (st, .schemaError)

def sendMessage (st : St) (input : Option XmlElem) : St × Res :=
  sendMessageWith validate_xml st input

/-- Models the isQueue decorator: the empty-store guard run before the
decorated handler. -/
def isQueue (f : St → St × Res) (st : St) : St × Res :=
  if st.q.isEmpty then (st, .emptyQueue) else f st

/-- Models getMessage: pop the head of the deque (the payload is discarded). -/
def getMessage (st : St) : St × Res :=
  isQueue (fun s => (⟨s.q.drop 1, s.docs, s.next⟩, .deleted)) st

/-- Models the loop of apply_filter.  Each record is matched against the
filter by reading its fields through the document-rooted XPath, i.e. from the
first occurrence in its current document; a matched record is appended to the
fresh pack document, which removes it from its previous document (lxml moves
the element). -/
def applyFilterLoop (fs : List (String × Json)) (pack : Nat) :
    List (XmlElem × Nat) → List (Nat × List XmlElem) →
      List (XmlElem × Nat) × List (Nat × List XmlElem) × List XmlElem
  | [], docs => ([], docs, [])
  | (m, d) :: rest, docs =>
    let ctx := getDoc docs d
    if matchAll ctx fs then
      let docs1 := setDoc docs d (ctx.erase m)
      let docs2 := setDoc docs1 pack (getDoc docs1 pack ++ [m])
      let r := applyFilterLoop fs pack rest docs2
      ((m, pack) :: r.1, r.2.1, m :: r.2.2)
    else
      let r := applyFilterLoop fs pack rest docs
      ((m, d) :: r.1, r.2.1, r.2.2)

/-- Models apply_filter: returns the updated state and the children of the
pack element, i.e. the matched records in arrival order. -/
def apply_filter (st : St) (fs : List (String × Json)) : St × List XmlElem :=
  let r := applyFilterLoop fs st.next st.q st.docs
  (⟨r.1, r.2.1, st.next + 1⟩, r.2.2)

/-- The filter entries of a validated query document (json_data of
apply_filter indexed at filter). -/
def getFilterEntries (j : Json) : List (String × Json) :=
  match j with
  | .obj kvs =>
    match lookupKey kvs "filter" with
    | some (.obj fs) => fs
    | _ => []
  | _ => []

/-- Models findMessages, parameterized by the filter validator so that
independence from it can be stated: empty-store guard first, then filter
validation, then apply_filter; an empty match set is the not-found outcome. -/
def findMessagesWith (validator : Json → String) (j : Json) (st : St) : St × Res :=
  isQueue (fun s =>
    if validator j == "valid" then
      let r := apply_filter s (getFilterEntries j)
      if r.2.isEmpty then (r.1, .noMatch) else (r.1, .matches r.2)
    else (s, .filterInvalid (validator j))) st

def findMessages (st : St) (j : Json) : St × Res :=
  findMessagesWith validate_json j st

/-! ### Derived runs -/

/-- Submit a list of parsed documents in order. -/
def insertAll (ms : List XmlElem) (st : St) : St :=
  ms.foldl (fun s m => (sendMessage s (some m)).1) st

/-- Consume k times. -/
def popK : Nat → St → St
  | 0, st => st
  | k + 1, st => popK k (getMessage st).1

/-! ### Spec-side definitions -/

/-- The spec data model of one record: five text fields. -/
structure MsgRec where
  msgTo : String
  msgFrom : String
  msgTimestamp : String
  msgTitle : String
  msgBody : String

/-- Field extraction from the canonical conformant document shape. -/
def recOf (m : XmlElem) : MsgRec :=
  match m with
  | .mk _ _ [.mk _ _ [f1, f2, f3, f4, f5]] =>
    ⟨f1.text, f2.text, f3.text, f4.text, f5.text⟩
  | _ => ⟨"", "", "", "", ""⟩

/-- Modelled from the spec wording of the Filter Engine matching rule: a
record matches iff every key present in the filter imposes its constraint;
to, from, title by exact string equality and date by comparing the day-level
DD.MM.YYYY normalization of the timestamp; absent keys impose no
constraint. -/
def specMatches (fs : List (String × Json)) (r : MsgRec) : Bool :=
  (match lookupKey fs "to" with | some v => jsonEqStr v r.msgTo | none => true) &&
  ((match lookupKey fs "from" with | some v => jsonEqStr v r.msgFrom | none => true) &&
  ((match lookupKey fs "date" with
    | some v => jsonEqStr v (dateutilFmt r.msgTimestamp) | none => true) &&
  ((match lookupKey fs "title" with | some v => jsonEqStr v r.msgTitle | none => true) &&
  true)))

/-- A store state in which no query has re-parented anything yet: every
record is the root of its own document, document ids are distinct and below
the fresh counter.  Every state reachable by submissions and consumptions
alone is of this shape. -/
def cleanState (st : St) : Prop :=
  (∀ e ∈ st.q, getDoc st.docs e.2 = [e.1]) ∧
  (st.q.map Prod.snd).Nodup ∧
  (∀ e ∈ st.q, e.2 < st.next)

instance (st : St) : Decidable (cleanState st) := by
  unfold cleanState; infer_instance

/-- The claim C4 characterization of filter validity: additionally to the
schema, no top-level key other than filter may be present. -/
def claimedFilterValid (j : Json) : Bool :=
  match j with
  | .obj [("filter", .obj fs)] =>
    decide (1 ≤ fs.length) && decide (fs.length ≤ 4) &&
      fs.all (fun kv => filterKeys.contains kv.1 && kv.2.isStr)
  | _ => false

/-- Modelled from the spec wording of the Filter Validator, amended to what
the schema enforces: the document is an object whose filter key holds an
object of 1 to 4 entries, all keys declared, all values strings; extra
top-level keys are permitted. -/
def specFilterValid (j : Json) : Bool :=
  match j with
  | .obj kvs =>
    match lookupKey kvs "filter" with
    | some (.obj fs) =>
      decide (1 ≤ fs.length) && decide (fs.length ≤ 4) &&
        fs.all (fun kv => filterKeys.contains kv.1 && kv.2.isStr)
    | _ => false
  | _ => false

/-! ### Concrete documents used by the claims -/

def msgA : XmlElem := mkMessage "x" "y" "2023-01-01T00:00:00Z" "a" "b"

def msgB : XmlElem := mkMessage "x" "y" "2023-01-01T00:00:00Z" "b" "b"

/-- A parseable document missing the Body field. -/
def missingBodyDoc : XmlElem :=
  .mk "Message" "" [.mk "Header" "" [.mk "To" "x" [], .mk "From" "y" [],
    .mk "Timestamp" "2023-01-01T00:00:00Z" [], .mk "Title" "hello" []]]

/-- An otherwise conformant document with an extra unexpected sibling field. -/
def extraFieldDoc : XmlElem :=
  .mk "Message" "" [.mk "Header" "" [.mk "To" "x" [], .mk "From" "y" [],
    .mk "Timestamp" "2023-01-01T00:00:00Z" [], .mk "Title" "hello" [],
    .mk "Body" "world" [], .mk "Extra" "z" []]]

/-- Filter on to equal to x. -/
def jTo : Json := .obj [("filter", .obj [("to", .str "x")])]

/-- Filter on title equal to b. -/
def jTitle : Json := .obj [("filter", .obj [("title", .str "b")])]

/-- A structurally valid filter document carrying an extra top-level key. -/
def cexTopLevelJson : Json :=
  .obj [("filter", .obj [("to", .str "x")]), ("extra", .str "y")]

/-! ## Helper lemmas -/

lemma any_serialize_iff (l : List (XmlElem × Nat)) (m : XmlElem) :
    (l.any fun e => serialize e.1 == serialize m) = true ↔
      ∃ e ∈ l, serialize e.1 = serialize m := by
  simp [List.any_eq_true]

/-! ## Claims -/

/-- C8: an input that cannot be parsed as XML fails with ParseError, whatever
schema validator is in place (validation is never reached), and the store is
left unchanged. -/
theorem claim8_parse_error_precedes_schema (validator : XmlElem → Bool) (st : St) :
    sendMessageWith validator st none = (st, Res.parseError) := rfl

/-- C6: consumption and query against an empty store both yield the
empty-queue error and leave the state untouched. -/
theorem claim6_empty_store_behavior (st : St) (h : st.q = []) :
    getMessage st = (st, Res.emptyQueue) ∧
    ∀ j : Json, findMessages st j = (st, Res.emptyQueue) := by
  constructor
  · simp [getMessage, isQueue, h]
  · intro j
    simp [findMessages, findMessagesWith, isQueue, h]

theorem claim6_witness :
    getMessage emptySt = (emptySt, Res.emptyQueue) ∧
    findMessages emptySt (Json.obj []) = (emptySt, Res.emptyQueue) :=
  ⟨(claim6_empty_store_behavior emptySt rfl).1,
   (claim6_empty_store_behavior emptySt rfl).2 (Json.obj [])⟩

/-- C10: on an empty store, findMessages answers the empty-queue error for
every query document and every filter validator: the emptiness guard runs
before validation, so even a structurally invalid filter never produces a
validation error there. -/
theorem claim10_emptiness_precedes_validation :
    (∀ (validator : Json → String) (j : Json) (st : St), st.q = [] →
        findMessagesWith validator j st = (st, Res.emptyQueue)) ∧
    validate_json (Json.str "junk") ≠ "valid" ∧
    findMessages emptySt (Json.str "junk") = (emptySt, Res.emptyQueue) := by
  refine ⟨fun v j st h => ?_, by decide, by decide⟩
  simp [findMessagesWith, isQueue, h]

theorem claim10_witness :
    findMessagesWith validate_json (Json.str "junk") emptySt =
      (emptySt, Res.emptyQueue) :=
  claim10_emptiness_precedes_validation.1 validate_json (Json.str "junk") emptySt rfl

/-- C7: a parseable but non-conformant document is rejected with SchemaError
and the store is unchanged; in particular a document missing the Body field
and an otherwise conformant document with an extra sibling field are both
non-conformant. -/
theorem claim7_schema_rejection :
    (∀ (st : St) (m : XmlElem), validate_xml m = false →
        sendMessage st (some m) = (st, Res.schemaError)) ∧
    validate_xml missingBodyDoc = false ∧
    validate_xml extraFieldDoc = false := by
  refine ⟨fun st m hm => ?_, by decide, by decide⟩
  simp [sendMessage, sendMessageWith, hm]

theorem claim7_witness :
    sendMessage emptySt (some missingBodyDoc) = (emptySt, Res.schemaError) :=
  claim7_schema_rejection.1 emptySt missingBodyDoc (by decide)

/-- C4 counterexample: a document with an extra top-level key beside filter is
accepted by validate_json (the root schema has no additionalProperties bound),
although the claimed characterization rejects it. -/
theorem claim4_counterexample :
    validate_json cexTopLevelJson = "valid" ∧
    claimedFilterValid cexTopLevelJson = false := by
  exact ⟨rfl, rfl⟩

lemma checkFilterEntries_valid (fs : List (String × Json)) :
    checkFilterEntries fs = "valid" ↔
      fs.all (fun kv => filterKeys.contains kv.1 && kv.2.isStr) = true := by
  induction fs with
  | nil => simp [checkFilterEntries]
  | cons kv rest ih =>
    obtain ⟨k, v⟩ := kv
    by_cases hk : k ∈ filterKeys
    · have hk2 : filterKeys.contains k = true := by simpa using hk
      cases v <;> simp [checkFilterEntries, hk, hk2, Json.isStr, ih]
    · have hk2 : filterKeys.contains k = false := by simpa using hk
      simp [checkFilterEntries, hk, hk2]

/-- C4 amended: validate_json returns valid exactly when the document is an
object whose filter key holds an object of 1 to 4 entries with declared keys
and string values; extra top-level keys are permitted. -/
theorem claim4_filter_validation (j : Json) :
    validate_json j = "valid" ↔ specFilterValid j = true := by
  cases j with
  | obj kvs =>
    simp only [validate_json, specFilterValid]
    cases hf : lookupKey kvs "filter" with
    | none => simp
    | some v =>
      cases v with
      | obj fs =>
        by_cases h1 : fs.length < 1
        · simp [if_pos h1, show ¬ (1 ≤ fs.length) by omega]
        · by_cases h4 : 4 < fs.length
          · simp [if_neg h1, if_pos h4, show ¬ (fs.length ≤ 4) by omega]
          · simp [if_neg h1, if_neg h4, checkFilterEntries_valid,
              show 1 ≤ fs.length by omega, show fs.length ≤ 4 by omega]
      | null => simp
      | bool b => simp
      | num n => simp
      | str s => simp
      | arr xs => simp
  | null => simp [validate_json, specFilterValid]
  | bool b => simp [validate_json, specFilterValid]
  | num n => simp [validate_json, specFilterValid]
  | str s => simp [validate_json, specFilterValid]
  | arr xs => simp [validate_json, specFilterValid]

/-- C1: for every store state and conformant message, submission is rejected
as a duplicate, with the state untouched, exactly when some queued record has
byte-identical serialization; otherwise the record is appended at the tail
and the size grows by one; and submitting the same conformant message twice
in a row from a store not containing it grows the store by exactly one with
the second submission rejected as a duplicate. -/
theorem claim1_no_duplicates (st : St) (m : XmlElem)
    (hm : validate_xml m = true) :
    ((∃ e ∈ st.q, serialize e.1 = serialize m) →
        sendMessage st (some m) = (st, Res.duplicate)) ∧
    ((¬ ∃ e ∈ st.q, serialize e.1 = serialize m) →
        (sendMessage st (some m)).2 = Res.created ∧
        (sendMessage st (some m)).1.q = st.q ++ [(m, st.next)] ∧
        (sendMessage st (some m)).1.q.length = st.q.length + 1) ∧
    ((¬ ∃ e ∈ st.q, serialize e.1 = serialize m) →
        (sendMessage ((sendMessage st (some m)).1) (some m)).2 = Res.duplicate ∧
        (sendMessage ((sendMessage st (some m)).1) (some m)).1.q.length =
          st.q.length + 1) := by
  refine ⟨fun h => ?_, fun h => ?_, fun h => ?_⟩
  · have ha := (any_serialize_iff st.q m).mpr h
    simp [sendMessage, sendMessageWith, hm, ha]
  · have ha : (st.q.any fun e => serialize e.1 == serialize m) = false :=
      Bool.eq_false_iff.mpr fun hc => h ((any_serialize_iff st.q m).mp hc)
    simp [sendMessage, sendMessageWith, hm, ha]
  · have ha : (st.q.any fun e => serialize e.1 == serialize m) = false :=
      Bool.eq_false_iff.mpr fun hc => h ((any_serialize_iff st.q m).mp hc)
    have hst1 : (sendMessage st (some m)).1 =
        ⟨st.q ++ [(m, st.next)], (st.next, [m]) :: st.docs, st.next + 1⟩ := by
      simp [sendMessage, sendMessageWith, hm, ha]
    have ha2 : ((st.q ++ [(m, st.next)]).any
        fun e => serialize e.1 == serialize m) = true := by
      simp
    rw [hst1]
    constructor
    · simp [sendMessage, sendMessageWith, hm, ha2]
    · simp [sendMessage, sendMessageWith, hm, ha2]

theorem claim1_witness :
    (sendMessage emptySt (some msgA)).2 = Res.created ∧
    (sendMessage (sendMessage emptySt (some msgA)).1 (some msgA)).2 =
      Res.duplicate ∧
    (sendMessage (sendMessage emptySt (some msgA)).1 (some msgA)).1.q.length =
      emptySt.q.length + 1 := by
  have h := claim1_no_duplicates emptySt msgA (by decide)
  have hfresh : ¬ ∃ e ∈ emptySt.q, serialize e.1 = serialize msgA := by
    simp [emptySt]
  exact ⟨(h.2.1 hfresh).1, (h.2.2 hfresh).1, (h.2.2 hfresh).2⟩

/-- C2: for a conformant stored record in its own document, the date key of a
filter matches exactly when the filter value equals the day-level DD.MM.YYYY
normalization of the record timestamp; the timestamp 2023-05-01T14:30:00Z
normalizes to 01.05.2023, matching that filter value and not 02.05.2023. -/
theorem claim2_date_normalization :
    (∀ a b c d e v, validate_xml (mkMessage a b c d e) = true →
        (keyCheck [mkMessage a b c d e] "date" (Json.str v) = true ↔
          dateutilFmt c = v)) ∧
    dateutilFmt "2023-05-01T14:30:00Z" = "01.05.2023" ∧
    keyCheck [mkMessage "u" "w" "2023-05-01T14:30:00Z" "t" "b"] "date"
      (Json.str "01.05.2023") = true ∧
    keyCheck [mkMessage "u" "w" "2023-05-01T14:30:00Z" "t" "b"] "date"
      (Json.str "02.05.2023") = false := by
  refine ⟨fun a b c d e v _ => ?_, by decide, by decide, by decide⟩
  have hfirst : firstInForest "Timestamp" [mkMessage a b c d e] =
      some (.mk "Timestamp" c []) := by
    simp [firstInForest, firstInTree, mkMessage]
  simp only [keyCheck, check_mssg, hfirst]
  simp [XmlElem.text, jsonEqStr]
  exact eq_comm

theorem claim2_witness :
    keyCheck [mkMessage "u" "w" "2023-05-01T14:30:00Z" "t" "b"] "date"
      (Json.str "01.05.2023") = true :=
  (claim2_date_normalization.1 "u" "w" "2023-05-01T14:30:00Z" "t" "b"
    "01.05.2023" (by decide)).mpr (by decide)

lemma getMessage_q (st : St) : (getMessage st).1.q = st.q.drop 1 := by
  cases hq : st.q <;> simp [getMessage, isQueue, hq]

lemma popK_q (k : Nat) : ∀ st : St, (popK k st).q = st.q.drop k := by
  induction k with
  | zero => intro st; simp [popK]
  | succ n ih =>
    intro st
    rw [popK, ih, getMessage_q, List.drop_drop, Nat.add_comm]

lemma insertAll_q (ms : List XmlElem) : ∀ st : St,
    (∀ m ∈ ms, validate_xml m = true) →
    (∀ m ∈ ms, ∀ e ∈ st.q, serialize e.1 ≠ serialize m) →
    ms.Pairwise (fun x y => serialize x ≠ serialize y) →
    (insertAll ms st).q.map Prod.fst = st.q.map Prod.fst ++ ms := by
  induction ms with
  | nil => intro st _ _ _; simp [insertAll]
  | cons m rest ih =>
    intro st hv hfresh hp
    have hm : validate_xml m = true := hv m (by simp)
    have ha : (st.q.any fun e => serialize e.1 == serialize m) = false :=
      Bool.eq_false_iff.mpr fun hc => by
        obtain ⟨e, he, hs⟩ := (any_serialize_iff st.q m).mp hc
        exact hfresh m (by simp) e he hs
    have hstep : insertAll (m :: rest) st = insertAll rest
        ⟨st.q ++ [(m, st.next)], (st.next, [m]) :: st.docs, st.next + 1⟩ := by
      simp [insertAll, sendMessage, sendMessageWith, hm, ha]
    rw [hstep, ih ⟨st.q ++ [(m, st.next)], (st.next, [m]) :: st.docs, st.next + 1⟩
      (fun x hx => hv x (by simp [hx]))
      (fun x hx e he => by
        rcases List.mem_append.mp he with hin | hin
        · exact hfresh x (by simp [hx]) e hin
        · have hex : e = (m, st.next) := by simpa using hin
          rw [hex]
          exact (List.pairwise_cons.mp hp).1 x hx)
      ((List.pairwise_cons.mp hp).2)]
    simp

/-- C5: submitting N pairwise distinct conformant messages into an empty
store and then consuming N times removes the head record at each step,
shrinking the store by one, so the records leave in exact insertion order
and the store ends empty. -/
theorem claim5_fifo_order (ms : List XmlElem)
    (hv : ∀ m ∈ ms, validate_xml m = true)
    (hd : ms.Pairwise fun x y => serialize x ≠ serialize y) :
    (insertAll ms emptySt).q.map Prod.fst = ms ∧
    (∀ k, (popK k (insertAll ms emptySt)).q.map Prod.fst = ms.drop k) ∧
    (∀ k, k < ms.length →
      (popK k (insertAll ms emptySt)).q.head?.map Prod.fst = ms[k]? ∧
      (getMessage (popK k (insertAll ms emptySt))).2 = Res.deleted ∧
      (getMessage (popK k (insertAll ms emptySt))).1.q.map Prod.fst =
        ms.drop (k + 1)) ∧
    (popK ms.length (insertAll ms emptySt)).q = [] := by
  have hq : (insertAll ms emptySt).q.map Prod.fst = ms := by
    have := insertAll_q ms emptySt hv
      (fun m _ e he => by simp [emptySt] at he) hd
    simpa [emptySt] using this
  have hpop : ∀ k, (popK k (insertAll ms emptySt)).q.map Prod.fst = ms.drop k := by
    intro k
    rw [popK_q, List.map_drop, hq]
  refine ⟨hq, hpop, fun k hk => ⟨?_, ?_, ?_⟩, ?_⟩
  · rw [← List.head?_map, hpop k, List.head?_drop]
  · have hne : (popK k (insertAll ms emptySt)).q ≠ [] := by
      intro hnil
      have := hpop k
      rw [hnil] at this
      have : ms.length ≤ k := List.drop_eq_nil_iff.mp this.symm
      omega
    cases hq2 : (popK k (insertAll ms emptySt)).q with
    | nil => exact absurd hq2 hne
    | cons e tl => simp [getMessage, isQueue, hq2]
  · rw [getMessage_q, List.map_drop, hpop k, List.drop_drop]
  · have := hpop ms.length
    simp only [List.drop_length] at this
    exact List.map_eq_nil_iff.mp this

theorem claim5_witness :
    (insertAll [msgA, msgB] emptySt).q.map Prod.fst = [msgA, msgB] ∧
    (popK 1 (insertAll [msgA, msgB] emptySt)).q.head?.map Prod.fst =
      [msgA, msgB][1]? ∧
    (popK 2 (insertAll [msgA, msgB] emptySt)).q = [] := by
  have h := claim5_fifo_order [msgA, msgB] (by decide) (by decide)
  exact ⟨h.1, (h.2.2.1 1 (by decide)).1, h.2.2.2⟩

lemma validate_xml_shape (m : XmlElem) (h : validate_xml m = true) :
    ∃ a b c d e, m = mkMessage a b c d e ∧ isXsDateTime c = true := by
  obtain ⟨tag, text, cs⟩ := m
  cases cs with
  | nil =>
    simp [validate_xml, XmlElem.tag, XmlElem.text, XmlElem.children] at h
  | cons hdr tl =>
    cases tl with
    | cons x xs =>
      simp [validate_xml, XmlElem.tag, XmlElem.text, XmlElem.children] at h
    | nil =>
      obtain ⟨t2, x2, cs2⟩ := hdr
      rcases cs2 with _ | ⟨⟨u1, v1, w1⟩, _ | ⟨⟨u2, v2, w2⟩, _ | ⟨⟨u3, v3, w3⟩,
        _ | ⟨⟨u4, v4, w4⟩, _ | ⟨⟨u5, v5, w5⟩, _ | ⟨g6, r6⟩⟩⟩⟩⟩⟩ <;>
        simp [validate_xml, isStringLeaf, XmlElem.tag, XmlElem.text,
          XmlElem.children, List.isEmpty_iff] at h
      refine ⟨v1, v2, v3, v4, v5, ?_, ?_⟩
      · simp_all [mkMessage]
      · simp_all

lemma matchAll_singleton (a b c d e : String) (fs : List (String × Json)) :
    matchAll [mkMessage a b c d e] fs =
      specMatches fs (recOf (mkMessage a b c d e)) := by
  have hTo : firstInForest "To" [mkMessage a b c d e] = some (.mk "To" a []) := by
    simp [firstInForest, firstInTree, mkMessage]
  have hFrom : firstInForest "From" [mkMessage a b c d e] =
      some (.mk "From" b []) := by
    simp [firstInForest, firstInTree, mkMessage]
  have hTs : firstInForest "Timestamp" [mkMessage a b c d e] =
      some (.mk "Timestamp" c []) := by
    simp [firstInForest, firstInTree, mkMessage]
  have hTitle : firstInForest "Title" [mkMessage a b c d e] =
      some (.mk "Title" d []) := by
    simp [firstInForest, firstInTree, mkMessage]
  have hrec : recOf (mkMessage a b c d e) = ⟨a, b, c, d, e⟩ := rfl
  rw [hrec]
  cases h1 : lookupKey fs "to" <;> cases h2 : lookupKey fs "from" <;>
    cases h3 : lookupKey fs "date" <;> cases h4 : lookupKey fs "title" <;>
      simp [matchAll, filterKeys, keyCheck, check_mssg, pathOf, hTo, hFrom,
        hTs, hTitle, specMatches, XmlElem.text, h1, h2, h3, h4]

lemma getDoc_setDoc_ne (docs : List (Nat × List XmlElem)) (i j : Nat)
    (v : List XmlElem) (h : i ≠ j) :
    getDoc (setDoc docs i v) j = getDoc docs j := by
  induction docs with
  | nil => simp [setDoc, getDoc, h]
  | cons p rest ih =>
    obtain ⟨n, ms⟩ := p
    by_cases hn : n = i
    · subst hn
      simp [setDoc, getDoc, h]
    · simp [setDoc, getDoc, hn, ih]

lemma applyFilterLoop_matched (fs : List (String × Json)) (pack : Nat) :
    ∀ (qs : List (XmlElem × Nat)) (docs : List (Nat × List XmlElem)),
      (∀ e ∈ qs, getDoc docs e.2 = [e.1]) →
      (qs.map Prod.snd).Nodup →
      (∀ e ∈ qs, e.2 ≠ pack) →
      (applyFilterLoop fs pack qs docs).2.2 =
        (qs.map Prod.fst).filter fun m => matchAll [m] fs := by
  intro qs
  induction qs with
  | nil => intro docs _ _ _; simp [applyFilterLoop]
  | cons e rest ih =>
    intro docs hdoc hnd hnp
    obtain ⟨m, d⟩ := e
    have hctx : getDoc docs d = [m] := hdoc (m, d) (by simp)
    have hhead := (List.pairwise_cons.mp hnd).1
    have hrest : ∀ e2 ∈ rest, e2.2 ≠ d := fun e2 he2 hne =>
      hhead e2.2 (List.mem_map_of_mem Prod.snd he2) hne.symm
    have hnd2 : (rest.map Prod.snd).Nodup := (List.pairwise_cons.mp hnd).2
    have hnp2 : ∀ e2 ∈ rest, e2.2 ≠ pack := fun e2 he2 => hnp e2 (by simp [he2])
    cases hmatch : matchAll [m] fs with
    | false =>
      have hih := ih docs (fun e2 he2 => hdoc e2 (by simp [he2])) hnd2 hnp2
      simp [applyFilterLoop, hctx, hmatch, hih]
    | true =>
      have hdocs2 : ∀ e2 ∈ rest,
          getDoc (setDoc (setDoc docs d ([] : List XmlElem)) pack
            (getDoc (setDoc docs d ([] : List XmlElem)) pack ++ [m]))
            e2.2 = [e2.1] := by
        intro e2 he2
        rw [getDoc_setDoc_ne _ _ _ _ (fun hp => hnp2 e2 he2 hp.symm),
          getDoc_setDoc_ne _ _ _ _ (fun hp => hrest e2 he2 hp.symm)]
        exact hdoc e2 (by simp [he2])
      have hih := ih _ hdocs2 hnd2 hnp2
      simp [applyFilterLoop, hctx, hmatch, hih]

/-- C3: on a store reached by submissions alone (every conformant record the
root of its own document), a validated filter query returns exactly the
records satisfying every key present in the filter, in arrival order, and
the no-match outcome exactly when that subsequence is empty. -/
theorem claim3_and_semantics (st : St) (j : Json)
    (hclean : cleanState st)
    (hv : ∀ e ∈ st.q, validate_xml e.1 = true)
    (hne : st.q ≠ [])
    (hj : validate_json j = "valid") :
    (findMessages st j).2 =
      if ((st.q.map Prod.fst).filter fun m =>
            specMatches (getFilterEntries j) (recOf m)).isEmpty
      then Res.noMatch
      else Res.matches ((st.q.map Prod.fst).filter fun m =>
            specMatches (getFilterEntries j) (recOf m)) := by
  obtain ⟨hdoc, hnd, hlt⟩ := hclean
  have hms : (applyFilterLoop (getFilterEntries j) st.next st.q st.docs).2.2 =
      (st.q.map Prod.fst).filter fun m => matchAll [m] (getFilterEntries j) :=
    applyFilterLoop_matched _ _ st.q st.docs hdoc hnd
      (fun e he => Nat.ne_of_lt (hlt e he))
  have hcongr : ((st.q.map Prod.fst).filter fun m =>
        matchAll [m] (getFilterEntries j)) =
      (st.q.map Prod.fst).filter fun m =>
        specMatches (getFilterEntries j) (recOf m) := by
    apply List.filter_congr
    intro m hm
    obtain ⟨e, he, hfst⟩ := List.mem_map.mp hm
    obtain ⟨a, b, c, d, e2, hshape, _⟩ := validate_xml_shape e.1 (hv e he)
    rw [← hfst, hshape, matchAll_singleton]
  have hq : st.q.isEmpty = false := by
    cases hqe : st.q with
    | nil => exact absurd hqe hne
    | cons x xs => simp
  simp only [findMessages, findMessagesWith, isQueue, hq, Bool.false_eq_true,
    if_false, hj, apply_filter, hms, hcongr]
  split
  · split <;> rfl
  · rename_i hcontra
    simp at hcontra

theorem claim3_witness :
    (findMessages (insertAll [msgA, msgB] emptySt) jTo).2 =
      if (((insertAll [msgA, msgB] emptySt).q.map Prod.fst).filter fun m =>
            specMatches (getFilterEntries jTo) (recOf m)).isEmpty
      then Res.noMatch
      else Res.matches
        (((insertAll [msgA, msgB] emptySt).q.map Prod.fst).filter fun m =>
            specMatches (getFilterEntries jTo) (recOf m)) :=
  claim3_and_semantics (insertAll [msgA, msgB] emptySt) jTo
    (by decide) (by decide) (by decide) (by decide)

/-- C9 is refuted by the code: a query re-parents every matched record under
the shared pack element (lxml moves the node on append), so although the
record list and its order survive, the records' document contexts change and
a later query reads its fields from the first record of that shared document.
Concretely, after inserting two records with To x and Titles a and b and
querying for To x, a second query for Title b reports no match even though
the second record satisfies it (on a fresh store the same query matches). -/
theorem claim9_query_mutates_store :
    (insertAll [msgA, msgB] emptySt).q.map Prod.fst = [msgA, msgB] ∧
    (findMessages (insertAll [msgA, msgB] emptySt) jTo).2 =
      Res.matches [msgA, msgB] ∧
    (∃ e ∈ ((findMessages (insertAll [msgA, msgB] emptySt) jTo).1).q,
        getDoc ((findMessages (insertAll [msgA, msgB] emptySt) jTo).1).docs
          e.2 ≠ [e.1]) ∧
    matchAll [msgB] (getFilterEntries jTitle) = true ∧
    (findMessages ((findMessages (insertAll [msgA, msgB] emptySt) jTo).1)
      jTitle).2 = Res.noMatch ∧
    (findMessages (insertAll [msgA, msgB] emptySt) jTitle).2 =
      Res.matches [msgB] := by
  decide

end RestAPI
